import Mathlib

/-!
Shallow embedding of `src/Implementacao_Deflexao_Analitica.py`
(class `linhaElastica`): analytic elastic-line deflection of a beam
under point loads, and the inverse solve for the second moment of area.

Real-number arithmetic of the script is modelled over `ℚ`.  A scalar
division by zero in the script raises an error that the surrounding
`try/except` catches; the embedding models each fallible per-load term
with `Option`, and the loops keep the partial accumulation that the
script's `result[i] += ...` / `result += ...` statements leave behind
when an exception interrupts them.  The `Diag` component of a result
records which diagnostic message, if any, the call printed; the Python
caller receives only the numeric component, never an exception.
-/

namespace Deflexao

/-- Which diagnostic message a call printed: none, the
"momento de inércia foi definido?" message from `get_y`'s `else`
branch, or the "carregamento foi definido?" message printed by the
`except` handlers of `get_y` and `get_I`. -/
inductive Diag where
  | ok : Diag
  | stiffnessMsg : Diag
  | loadMsg : Diag
  deriving DecidableEq, Repr

/-- State of a `linhaElastica` object: beam length `L`, elastic modulus
`E`, second moment of area `I`, and the optional load configuration
(`P` = magnitudes, `x` = positions), both `None` after `__init__`. -/
structure linhaElastica where
  L : ℚ
  E : ℚ
  I : ℚ
  P : Option (List ℚ)
  x : Option (List ℚ)
  deriving DecidableEq, Repr

/-- `linhaElastica.__init__(L, E, I)`: stores `L`, `E`, `I` and leaves
`P` and `x` unset (`None`). -/
def init (L E I : ℚ) : linhaElastica :=
  { L := L, E := E, I := I, P := Option.none, x := Option.none }

/-- `linhaElastica.set_P(P, x)`: replaces the load magnitudes and
positions wholesale and returns the (updated) object. -/
def set_P (s : linhaElastica) (P x : List ℚ) : linhaElastica :=
  { s with P := some P, x := some x }

/-- `linhaElastica.set_I(I)`: replaces the second moment of area and
returns the (updated) object. -/
def set_I (s : linhaElastica) (I : ℚ) : linhaElastica :=
  { s with I := I }

/-- One per-load contribution accumulated into `result[i]` by `get_y`:
`(P*x[i]**3)/6/E/I - (P*x[j]*x[i]**2)/2/E/I` when `x[i] < x[j]`, else
`(P*x[j]**3)/6/E/I - (P*x[i]*x[j]**2)/2/E/I`.  `Option.none` models the
`ZeroDivisionError` the scalar divisions raise when `E` or `I` is
zero. -/
def termY (E I P xj xi : ℚ) : Option ℚ :=
  if E = 0 ∨ I = 0 then Option.none
  else some (if xi < xj then P * xi ^ 3 / 6 / E / I - P * xj * xi ^ 2 / 2 / E / I
             else P * xj ^ 3 / 6 / E / I - P * xi * xj ^ 2 / 2 / E / I)

/-- The inner loop of `get_y` for one query position `xi`:
`for j, P in enumerate(self.P)` accumulating `termY` into `result[i]`,
indexing `self.x[j]`.  Returns the accumulated sum together with `true`
when the loop finished, or the partial sum together with `false` when
an index past the end of `self.x` or a division raised. -/
def rowY (E I xi : ℚ) : List ℚ → List ℚ → ℚ × Bool
  | [], _ => (0, true)
  | _ :: _, [] => (0, false)
  | P :: Ps, xj :: xjs =>
    match termY E I P xj xi with
    | Option.none => (0, false)
    | some t =>
      let r := rowY E I xi Ps xjs
      (t + r.1, r.2)

/-- The outer loop of `get_y` (`for i in range(len(x))`): one row per
query position.  An exception in row `i` aborts both loops, so row `i`
keeps its partial sum and every later row keeps its initial `0`. -/
def rowsY (E I : ℚ) (Ps xjs : List ℚ) : List ℚ → List ℚ × Bool
  | [] => ([], true)
  | xi :: xis =>
    let r := rowY E I xi Ps xjs
    if r.2 then
      let rest := rowsY E I Ps xjs xis
      (r.1 :: rest.1, rest.2)
    else
      (r.1 :: xis.map (fun _ => (0 : ℚ)), false)

/-- `linhaElastica.get_y(x)`: starts from `np.zeros_like(x)`; if
`self.I` is non-zero runs the double superposition loop under
`try/except` (printing the load message when the loop raises —
`enumerate(None)`, `None[j]`, index past the end of `self.x`, or a
scalar division by zero); otherwise prints the stiffness message.  The
numeric component is what the Python caller receives. -/
def get_y (s : linhaElastica) (xs : List ℚ) : List ℚ × Diag :=
  if s.I ≠ 0 then
    match s.P, s.x with
    | some Ps, some xjs =>
      let r := rowsY s.E s.I Ps xjs xs
      (r.1, if r.2 then Diag.ok else Diag.loadMsg)
    | some Ps, Option.none =>
      (xs.map (fun _ => 0),
        if xs = [] ∨ Ps = [] then Diag.ok else Diag.loadMsg)
    | Option.none, _ =>
      (xs.map (fun _ => 0), if xs = [] then Diag.ok else Diag.loadMsg)
  else
    (xs.map (fun _ => 0), Diag.stiffnessMsg)

/-- One per-load contribution accumulated into `result` by `get_I`: the
same piecewise expression as `termY` with the division by `self.I`
replaced by a division by the target deflection `y`. -/
def termI (E y P xj x : ℚ) : Option ℚ :=
  if E = 0 ∨ y = 0 then Option.none
  else some (if x < xj then P * x ^ 3 / 6 / E / y - P * xj * x ^ 2 / 2 / E / y
             else P * xj ^ 3 / 6 / E / y - P * x * xj ^ 2 / 2 / E / y)

/-- The loop of `get_I`: `for j, P in enumerate(self.P)` accumulating
`termI` into `result`, with the same partial-sum-on-exception behavior
as `rowY`. -/
def rowI (E y x : ℚ) : List ℚ → List ℚ → ℚ × Bool
  | [], _ => (0, true)
  | _ :: _, [] => (0, false)
  | P :: Ps, xj :: xjs =>
    match termI E y P xj x with
    | Option.none => (0, false)
    | some t =>
      let r := rowI E y x Ps xjs
      (t + r.1, r.2)

/-- `linhaElastica.get_I(y, x)`: starts from `result = 0`, runs the
per-load loop under `try/except` (printing the load message when the
loop raises), and returns `result` — the partial sum — in every
case. -/
def get_I (s : linhaElastica) (y x : ℚ) : ℚ × Diag :=
  match s.P, s.x with
  | some Ps, some xjs =>
    let r := rowI s.E y x Ps xjs
    (r.1, if r.2 then Diag.ok else Diag.loadMsg)
  | some Ps, Option.none =>
    (0, if Ps = [] then Diag.ok else Diag.loadMsg)
  | Option.none, _ => (0, Diag.loadMsg)

/-! Spec-side closed forms.  `claimTerm` is the per-load contribution
exactly as the specification writes it, with a single denominator
`6·E·I` resp. `2·E·I`; `claimSum` is the superposition sum over the
(magnitude, position) pairs. -/

/-- Per-load deflection contribution as stated in the specification:
`P·xi³/(6·E·I) − P·xj·xi²/(2·E·I)` when `xi < xj`, else
`P·xj³/(6·E·I) − P·xi·xj²/(2·E·I)`. -/
def claimTerm (E I P xj xi : ℚ) : ℚ :=
  if xi < xj then P * xi ^ 3 / (6 * E * I) - P * xj * xi ^ 2 / (2 * E * I)
  else P * xj ^ 3 / (6 * E * I) - P * xi * xj ^ 2 / (2 * E * I)

/-- Superposition: the sum of `claimTerm` over all (magnitude, position)
pairs of the load configuration. -/
def claimSum (E I : ℚ) (Ps xjs : List ℚ) (xi : ℚ) : ℚ :=
  ((Ps.zip xjs).map (fun q => claimTerm E I q.1 q.2 xi)).sum

/-- The load-dependent numerator common to the forward and the inverse
formula: `claimTerm E I P xj xi = loadNum P xj xi / (E·I)` and the
`get_I` term is `loadNum P xj x / (E·y)`. -/
def loadNum (P xj xi : ℚ) : ℚ :=
  if xi < xj then P * xi ^ 3 / 6 - P * xj * xi ^ 2 / 2
  else P * xj ^ 3 / 6 - P * xi * xj ^ 2 / 2

/-- Sum of `loadNum` over the (magnitude, position) pairs. -/
def totalNum (Ps xjs : List ℚ) (xi : ℚ) : ℚ :=
  ((Ps.zip xjs).map (fun q => loadNum q.1 q.2 xi)).sum

lemma claimTerm_eq (E I P xj xi : ℚ) :
    claimTerm E I P xj xi = loadNum P xj xi / (E * I) := by
  unfold claimTerm loadNum
  split <;> ring

lemma termY_eq {E I : ℚ} (hE : E ≠ 0) (hI : I ≠ 0) (P xj xi : ℚ) :
    termY E I P xj xi = some (claimTerm E I P xj xi) := by
  unfold termY claimTerm
  rw [if_neg (by simp [hE, hI])]
  congr 1
  split <;> ring

lemma termI_eq {E y : ℚ} (hE : E ≠ 0) (hy : y ≠ 0) (P xj x : ℚ) :
    termI E y P xj x = some (loadNum P xj x / (E * y)) := by
  unfold termI loadNum
  rw [if_neg (by simp [hE, hy])]
  congr 1
  split <;> ring

lemma rowY_ok {E I : ℚ} (xi : ℚ) (hE : E ≠ 0) (hI : I ≠ 0) :
    ∀ (Ps xjs : List ℚ), Ps.length ≤ xjs.length →
      rowY E I xi Ps xjs = (claimSum E I Ps xjs xi, true) := by
  intro Ps
  induction Ps with
  | nil => intro xjs _; simp [rowY, claimSum]
  | cons P Ps ih =>
    intro xjs h
    cases xjs with
    | nil => simp at h
    | cons xj xjs =>
      simp only [List.length_cons, Nat.succ_le_succ_iff] at h
      simp [rowY, termY_eq hE hI, claimSum, ih xjs h]

lemma rowsY_ok {E I : ℚ} {Ps xjs : List ℚ} (hE : E ≠ 0) (hI : I ≠ 0)
    (hlen : Ps.length ≤ xjs.length) :
    ∀ xs : List ℚ,
      rowsY E I Ps xjs xs = (xs.map (fun xi => claimSum E I Ps xjs xi), true) := by
  intro xs
  induction xs with
  | nil => simp [rowsY]
  | cons xi xis ih => simp [rowsY, rowY_ok xi hE hI Ps xjs hlen, ih]

lemma get_y_ok (s : linhaElastica) {Ps xjs : List ℚ} (xs : List ℚ)
    (hP : s.P = some Ps) (hx : s.x = some xjs)
    (hE : s.E ≠ 0) (hI : s.I ≠ 0) (hlen : Ps.length ≤ xjs.length) :
    get_y s xs = (xs.map (fun xi => claimSum s.E s.I Ps xjs xi), Diag.ok) := by
  simp [get_y, hP, hx, hI, rowsY_ok hE hI hlen]

lemma list_sum_div (l : List (ℚ × ℚ)) (f : ℚ × ℚ → ℚ) (c : ℚ) :
    (l.map (fun a => f a / c)).sum = (l.map f).sum / c := by
  induction l with
  | nil => simp
  | cons a l ih => simp [ih, add_div]

lemma claimSum_eq (E I : ℚ) (Ps xjs : List ℚ) (xi : ℚ) :
    claimSum E I Ps xjs xi = totalNum Ps xjs xi / (E * I) := by
  unfold claimSum totalNum
  simp only [claimTerm_eq]
  exact list_sum_div _ _ _

lemma rowI_ok {E y : ℚ} (x : ℚ) (hE : E ≠ 0) (hy : y ≠ 0) :
    ∀ (Ps xjs : List ℚ), Ps.length ≤ xjs.length →
      rowI E y x Ps xjs = (totalNum Ps xjs x / (E * y), true) := by
  intro Ps
  induction Ps with
  | nil => intro xjs _; simp [rowI, totalNum]
  | cons P Ps ih =>
    intro xjs h
    cases xjs with
    | nil => simp at h
    | cons xj xjs =>
      simp only [List.length_cons, Nat.succ_le_succ_iff] at h
      simp [rowI, termI_eq hE hy, totalNum, ih xjs h, add_div]

lemma get_I_ok (s : linhaElastica) {Ps xjs : List ℚ} (y x : ℚ)
    (hP : s.P = some Ps) (hx : s.x = some xjs)
    (hE : s.E ≠ 0) (hy : y ≠ 0) (hlen : Ps.length ≤ xjs.length) :
    get_I s y x = (totalNum Ps xjs x / (s.E * y), Diag.ok) := by
  simp [get_I, hP, hx, rowI_ok x hE hy Ps xjs hlen]

lemma zip_append_eq :
    ∀ (P1 x1 P2 x2 : List ℚ), P1.length = x1.length →
      (P1 ++ P2).zip (x1 ++ x2) = P1.zip x1 ++ P2.zip x2
  | [], [], _, _, _ => by simp
  | [], _ :: _, _, _, h => by simp at h
  | _ :: _, [], _, _, h => by simp at h
  | P :: P1, xj :: x1, P2, x2, h => by
    simp only [List.cons_append, List.zip_cons_cons]
    rw [zip_append_eq P1 x1 P2 x2 (by simpa using h)]

lemma zip_take_len (Ps : List ℚ) :
    ∀ xjs : List ℚ, Ps.zip (xjs.take Ps.length) = Ps.zip xjs := by
  induction Ps with
  | nil => intro xjs; simp
  | cons P Ps ih =>
    intro xjs
    cases xjs with
    | nil => simp
    | cons xj xjs => simp [List.zip_cons_cons, ih xjs]

lemma rowY_fail (E I xi : ℚ) :
    ∀ (Ps xjs : List ℚ), xjs.length < Ps.length →
      (rowY E I xi Ps xjs).2 = false := by
  intro Ps
  induction Ps with
  | nil => intro xjs h; simp at h
  | cons P Ps ih =>
    intro xjs h
    cases xjs with
    | nil => simp [rowY]
    | cons xj xjs =>
      simp only [List.length_cons, Nat.succ_lt_succ_iff] at h
      cases ht : termY E I P xj xi with
      | none => simp [rowY, ht]
      | some t => simp [rowY, ht, ih xjs h]

lemma get_I_P_unset (s : linhaElastica) (y x : ℚ)
    (hP : s.P = Option.none) : get_I s y x = (0, Diag.loadMsg) := by
  cases hx : s.x <;> simp [get_I, hP, hx]

lemma get_I_zero_target (s : linhaElastica) (x : ℚ) {Ps : List ℚ}
    (hP : s.P = some Ps) (hne : Ps ≠ []) :
    get_I s 0 x = (0, Diag.loadMsg) := by
  cases Ps with
  | nil => exact absurd rfl hne
  | cons p Ps =>
    cases hx : s.x with
    | none => simp [get_I, hP, hx]
    | some xjs =>
      cases xjs with
      | nil => simp [get_I, hP, hx, rowI]
      | cons xj xjs => simp [get_I, hP, hx, rowI, termI]

/-- C1: with a configured load set (equal-length magnitude and position
sequences), non-zero `I` (and the beam's non-zero `E`), `get_y` returns
one deflection per query position, each equal to the superposition sum
`Σ_j claimTerm`: `P_j·x_i³/(6·E·I) − P_j·x_j·x_i²/(2·E·I)` for
`x_i < x_j`, else `P_j·x_j³/(6·E·I) − P_j·x_i·x_j²/(2·E·I)`. -/
theorem getY_superposition (s : linhaElastica) (Ps xjs xs : List ℚ)
    (hP : s.P = some Ps) (hx : s.x = some xjs) (hlen : Ps.length = xjs.length)
    (hE : s.E ≠ 0) (hI : s.I ≠ 0) :
    (get_y s xs).1 = xs.map (fun xi => claimSum s.E s.I Ps xjs xi) ∧
    (get_y s xs).1.length = xs.length := by
  rw [get_y_ok s xs hP hx hE hI (le_of_eq hlen)]
  exact ⟨rfl, by simp⟩

/-- Witness for C1 at a concrete beam: one unit load at position 1 on a
beam with `E = I = 1`, queried at 0 and 2. -/
theorem getY_superposition_witness :
    (get_y (set_P (init 1 1 1) [1] [1]) [0, 2]).1 = [0, -(5 / 6 : ℚ)] := by
  have h := (getY_superposition (set_P (init 1 1 1) [1] [1]) [1] [1] [0, 2]
    rfl rfl rfl (by norm_num [set_P, init]) (by norm_num [set_P, init])).1
  rw [h]
  norm_num [claimSum, claimTerm, set_P, init]

/-- C2: forward/inverse round trip — if `y` is the (non-zero) deflection
`get_y` computes at `x`, then `get_I y x` recovers the configured `I`
exactly. -/
theorem roundTrip (s : linhaElastica) (Ps xjs : List ℚ) (x y : ℚ)
    (hP : s.P = some Ps) (hx : s.x = some xjs) (hlen : Ps.length ≤ xjs.length)
    (hE : s.E ≠ 0) (hI : s.I ≠ 0)
    (hy : (get_y s [x]).1 = [y]) (hy0 : y ≠ 0) :
    get_I s y x = (s.I, Diag.ok) := by
  rw [get_y_ok s [x] hP hx hE hI hlen] at hy
  simp only [List.map_cons, List.map_nil, List.cons.injEq, and_true] at hy
  rw [claimSum_eq] at hy
  have hU : totalNum Ps xjs x ≠ 0 := by
    intro h0
    apply hy0
    rw [← hy, h0, zero_div]
  rw [get_I_ok s y x hP hx hE hy0 hlen]
  congr 1
  rw [← hy]
  field_simp
  ring

/-- Witness for C2: one unit load at position 1 on a beam with
`E = I = 1`; the deflection at 2 is `−5/6` and `get_I` maps it back to
`I = 1`. -/
theorem roundTrip_witness :
    get_I (set_P (init 1 1 1) [1] [1]) (-(5 / 6 : ℚ)) 2 = (1, Diag.ok) :=
  roundTrip (set_P (init 1 1 1) [1] [1]) [1] [1] 2 (-(5 / 6 : ℚ))
    rfl rfl (by simp) (by norm_num [set_P, init]) (by norm_num [set_P, init])
    (by norm_num [get_y, set_P, init, rowsY, rowY, termY]) (by norm_num)

/-- C3: a single point load `P` at the free end (`x_load = L`) gives
deflection `−P·L³/(3·E·I)` at the query position `L`. -/
theorem tipDeflection (s : linhaElastica) (P : ℚ)
    (hL : 0 < s.L) (hE : 0 < s.E) (hI : s.I ≠ 0)
    (hP : s.P = some [P]) (hx : s.x = some [s.L]) :
    (get_y s [s.L]).1 = [-(P * s.L ^ 3 / (3 * s.E * s.I))] := by
  rw [get_y_ok s [s.L] hP hx (ne_of_gt hE) hI (by simp)]
  have hnlt : ¬ (s.L < s.L) := lt_irrefl s.L
  simp only [List.map_cons, List.map_nil, claimSum, List.zip_cons_cons,
    List.zip_nil_right, List.map_cons, List.map_nil, List.sum_cons,
    List.sum_nil, claimTerm, hnlt, if_false]
  rw [List.cons.injEq]
  refine ⟨by ring, rfl⟩

/-- Witness for C3: load 3 at the end of a beam with `L = 2`,
`E = I = 1`; the tip deflection is `−3·2³/3 = −8`. -/
theorem tipDeflection_witness :
    (get_y (set_P (init 2 1 1) [3] [2]) [2]).1 = [(-8 : ℚ)] := by
  have h := tipDeflection (set_P (init 2 1 1) [3] [2]) 3
    (by norm_num [set_P, init]) (by norm_num [set_P, init])
    (by norm_num [set_P, init]) rfl rfl
  norm_num [set_P, init] at h
  exact h

/-- C4: superposition linearity — evaluating the concatenation of two
load sets at a query point gives the sum of the evaluations of each
load set alone. -/
theorem superpositionAdditive (s : linhaElastica) (P1 x1 P2 x2 : List ℚ)
    (xq a b : ℚ)
    (h1 : P1.length = x1.length) (h2 : P2.length = x2.length)
    (hE : s.E ≠ 0) (hI : s.I ≠ 0)
    (ha : (get_y (set_P s P1 x1) [xq]).1 = [a])
    (hb : (get_y (set_P s P2 x2) [xq]).1 = [b]) :
    (get_y (set_P s (P1 ++ P2) (x1 ++ x2)) [xq]).1 = [a + b] := by
  rw [get_y_ok (set_P s P1 x1) [xq] rfl rfl hE hI (le_of_eq h1)] at ha
  rw [get_y_ok (set_P s P2 x2) [xq] rfl rfl hE hI (le_of_eq h2)] at hb
  rw [get_y_ok (set_P s (P1 ++ P2) (x1 ++ x2)) [xq] rfl rfl hE hI
    (by simp [h1, h2])]
  simp only [List.map_cons, List.map_nil, List.cons.injEq, and_true] at ha hb ⊢
  rw [← ha, ← hb]
  unfold claimSum
  rw [zip_append_eq P1 x1 P2 x2 h1, List.map_append, List.sum_append]
  simp only [set_P]

/-- Witness for C4: loads `[1] @ [1]` and `[2] @ [3]` on a beam with
`E = I = 1`, queried at 2: `−5/6 + (−28/3) = −61/6`. -/
theorem superpositionAdditive_witness :
    (get_y (set_P (init 1 1 1) ([1] ++ [2]) ([1] ++ [3])) [2]).1
      = [-(61 / 6 : ℚ)] := by
  have h := superpositionAdditive (init 1 1 1) [1] [1] [2] [3] 2
    (-(5 / 6 : ℚ)) (-(28 / 3 : ℚ)) rfl rfl (by norm_num [init])
    (by norm_num [init])
    (by norm_num [get_y, set_P, init, rowsY, rowY, termY])
    (by norm_num [get_y, set_P, init, rowsY, rowY, termY])
  rw [h]
  norm_num

/-- C5 counterexample: with `I` left at 0, `get_y` does not raise
anything to the caller — it returns the all-zero numeric list, the only
failure signal being the printed stiffness message. -/
theorem missingStiffnessCounterexample :
    get_y (set_P (init 1 1 0) [1] [1]) [1] = ([0], Diag.stiffnessMsg) := by
  norm_num [get_y, set_P, init]

/-- C5 amended: with `I` unset (zero), `get_y` prints the
missing-stiffness message and returns an all-zero sequence of the same
length as the input; no error reaches the caller. -/
theorem missingStiffnessBehavior (s : linhaElastica) (xs : List ℚ)
    (hI : s.I = 0) :
    get_y s xs = (xs.map (fun _ => 0), Diag.stiffnessMsg) := by
  simp [get_y, hI]

/-- Witness for the amended C5 at a concrete unset-stiffness state. -/
theorem missingStiffnessBehavior_witness :
    get_y (init 1 1 0) [1, 2] = ([0, 0], Diag.stiffnessMsg) := by
  have h := missingStiffnessBehavior (init 1 1 0) [1, 2] rfl
  simpa using h

/-- C6 counterexample: `get_I` with target deflection 0 (and a
configured non-empty load set) does not raise an invalid-target
condition — the division error is caught, the generic load message is
printed, and the finite number 0 is returned. -/
theorem zeroDeflectionCounterexample :
    get_I (set_P (init 1 1 1) [1] [1]) 0 2 = (0, Diag.loadMsg) := by
  norm_num [get_I, set_P, init, rowI, termI]

/-- C6 amended: `get_I` called with target deflection 0 and a non-empty
load set catches the division-by-zero, prints the generic
load-configuration message, and returns 0 to the caller; no
invalid-target-deflection error is raised. -/
theorem zeroDeflectionBehavior (s : linhaElastica) (x : ℚ) (Ps : List ℚ)
    (hP : s.P = some Ps) (hne : Ps ≠ []) :
    get_I s 0 x = (0, Diag.loadMsg) :=
  get_I_zero_target s x hP hne

/-- Witness for the amended C6 at a concrete configured state. -/
theorem zeroDeflectionBehavior_witness :
    get_I (set_P (init 2 3 1) [4, 5] [1, 2]) 0 1 = (0, Diag.loadMsg) :=
  zeroDeflectionBehavior (set_P (init 2 3 1) [4, 5] [1, 2]) 1 [4, 5]
    rfl (by simp)

/-- C7 counterexample: with the position sequence strictly longer than
the magnitudes (a length mismatch), `get_y` neither raises nor prints —
it completes with `Diag.ok` and a genuinely computed value. -/
theorem loadMismatchCounterexample :
    get_y (set_P (init 1 1 1) [1] [1, 2]) [2] = ([-(5 / 6 : ℚ)], Diag.ok) := by
  norm_num [get_y, set_P, init, rowsY, rowY, termY]

/-- C7 amended: when the load set is unset, `get_y` (on a non-empty
query list, with `I` non-zero) prints the load message and returns the
all-zero list, and `get_I` prints it and returns 0; when the position
sequence is strictly shorter than the magnitudes, `get_y` prints the
load message and returns a list of the input's length (the partial
accumulation).  In every case the caller receives a plain numeric
result; nothing is raised, and a longer position sequence is accepted
silently. -/
theorem loadConfigBehavior (s : linhaElastica) (xs : List ℚ) (y xq : ℚ)
    (hI : s.I ≠ 0) (hxs : xs ≠ []) :
    (s.P = Option.none →
      get_y s xs = (xs.map (fun _ => 0), Diag.loadMsg) ∧
      get_I s y xq = (0, Diag.loadMsg)) ∧
    (∀ Ps xjs, s.P = some Ps → s.x = some xjs → xjs.length < Ps.length →
      (get_y s xs).2 = Diag.loadMsg ∧ (get_y s xs).1.length = xs.length) := by
  constructor
  · intro hP
    refine ⟨?_, get_I_P_unset s y xq hP⟩
    simp [get_y, hP, hI, hxs]
  · intro Ps xjs hP hx hlen
    cases xs with
    | nil => exact absurd rfl hxs
    | cons xi xis =>
      have hr := rowY_fail s.E s.I xi Ps xjs hlen
      simp [get_y, hP, hx, hI, rowsY, hr]

/-- Witness for the amended C7 at a concrete state with no load set. -/
theorem loadConfigBehavior_witness :
    get_y (init 1 1 1) [3] = ([0], Diag.loadMsg) ∧
    get_I (init 1 1 1) 5 2 = (0, Diag.loadMsg) :=
  (loadConfigBehavior (init 1 1 1) [3] 5 2 (by norm_num [init]) (by simp)).1 rfl

/-- C8: `set_P` replaces exactly the magnitude and position sequences,
`set_I` replaces exactly `I`, each yields the updated engine (the
Python methods mutate `self` and return it), and neither touches any
other field — in particular `L` and `E` are unchanged. -/
theorem settersFrame (s : linhaElastica) (P x : List ℚ) (I : ℚ) :
    (set_P s P x).P = some P ∧ (set_P s P x).x = some x ∧
    (set_P s P x).L = s.L ∧ (set_P s P x).E = s.E ∧ (set_P s P x).I = s.I ∧
    (set_I s I).I = I ∧ (set_I s I).L = s.L ∧ (set_I s I).E = s.E ∧
    (set_I s I).P = s.P ∧ (set_I s I).x = s.x :=
  ⟨rfl, rfl, rfl, rfl, rfl, rfl, rfl, rfl, rfl, rfl⟩

/-- C9: with strictly more positions than magnitudes, `get_y` completes
with no diagnostic at all and returns the superposition sum over only
the first `len(P)` (magnitude, position) pairs, silently ignoring the
extra positions. -/
theorem extraPositionsIgnored (s : linhaElastica) (Ps xjs xs : List ℚ)
    (hP : s.P = some Ps) (hx : s.x = some xjs) (hlen : Ps.length < xjs.length)
    (hE : s.E ≠ 0) (hI : s.I ≠ 0) :
    get_y s xs
      = (xs.map (fun xi => claimSum s.E s.I Ps (xjs.take Ps.length) xi),
         Diag.ok) := by
  rw [get_y_ok s xs hP hx hE hI hlen.le]
  simp [claimSum, zip_take_len]

/-- Witness for C9: one magnitude but two positions; the second
position is ignored and the call reports no diagnostic. -/
theorem extraPositionsIgnored_witness :
    get_y (set_P (init 1 1 1) [1] [1, 5]) [2] = ([-(5 / 6 : ℚ)], Diag.ok) := by
  have h := extraPositionsIgnored (set_P (init 1 1 1) [1] [1, 5]) [1] [1, 5]
    [2] rfl rfl (by simp) (by norm_num [set_P, init]) (by norm_num [set_P, init])
  rw [h]
  norm_num [claimSum, claimTerm, set_P, init]

/-- C10 counterexample: when a later per-load term fails (position
index out of range after the first load), `get_I` returns the partial
sum accumulated before the failure — here `−5/6`, not 0. -/
theorem partialAccumulationCounterexample :
    get_I (set_P (init 1 1 1) [1, 1] [1]) 1 2 = (-(5 / 6 : ℚ), Diag.loadMsg) ∧
    (get_I (set_P (init 1 1 1) [1, 1] [1]) 1 2).1 ≠ 0 := by
  refine ⟨?_, ?_⟩ <;> norm_num [get_I, set_P, init, rowI, termI]

/-- C10 amended: `get_I` returns exactly 0 (with only the printed load
message) when the load set is unset, and when the target deflection is
0 with a non-empty load set — failures that hit before any term is
accumulated; the caller cannot distinguish these returns from a genuine
zero estimate.  Failures after a term has been accumulated return the
partial sum instead. -/
theorem accumulatorZeroCases (s : linhaElastica) (y xq : ℚ) (Ps : List ℚ) :
    (s.P = Option.none → get_I s y xq = (0, Diag.loadMsg)) ∧
    (s.P = some Ps → Ps ≠ [] → get_I s 0 xq = (0, Diag.loadMsg)) :=
  ⟨fun hP => get_I_P_unset s y xq hP,
   fun hP hne => get_I_zero_target s xq hP hne⟩

/-- Witness for the amended C10: the unset case and the zero-target
case at concrete states. -/
theorem accumulatorZeroCases_witness :
    get_I (init 4 5 6) 7 8 = (0, Diag.loadMsg) ∧
    get_I (set_P (init 4 5 6) [1, 2] [3, 4]) 0 8 = (0, Diag.loadMsg) :=
  ⟨(accumulatorZeroCases (init 4 5 6) 7 8 [1]).1 rfl,
   (accumulatorZeroCases (set_P (init 4 5 6) [1, 2] [3, 4]) 0 8 [1, 2]).2
     rfl (by simp)⟩

end Deflexao
